import Mathlib

/-!
Verification of the helper functions in `helpers.py`.

File contents are modelled as lists of characters.  A pandas `DataFrame`
loaded from the variants file is a list of `VariantRow`, a frame loaded
from the text file is a list of `TextRow`.  Library calls (`pd.read_csv`,
`DataFrame.merge`, `Series.unique`, `DataFrame.iloc`, `KFold`,
`LabelBinarizer`, `log_loss`, `train_test_split`) are embedded as pure
functions on these lists; fallible operations return `Except String`.
-/

/-- Character for the decimal digit `d`, as produced by python `str`. -/
def digitChar (d : Nat) : Char := Char.ofNat (48 + d)

/-- Fuel-driven decimal rendering: pushes the digits of `n` in front of `acc`. -/
def natCharsAux : Nat → Nat → List Char → List Char
  | 0, _, acc => acc
  | fuel + 1, n, acc =>
    if n < 10 then digitChar (n % 10) :: acc
    else natCharsAux fuel (n / 10) (digitChar (n % 10) :: acc)

/-- Decimal rendering of a natural number, as python `str` of an `int`. -/
def natChars (n : Nat) : List Char := natCharsAux (n + 1) n []

/-- Accumulating decimal parser over a list of characters. -/
def digitsVal : List Char → Nat → Option Nat
  | [], acc => some acc
  | c :: cs, acc =>
    if c.isDigit then digitsVal cs (10 * acc + (c.toNat - 48)) else none

/-- Parse a nonempty all-digit character list as a natural number. -/
def natOfChars? (cs : List Char) : Option Nat :=
  if cs.isEmpty then none else digitsVal cs 0

/-- Split a character list at every occurrence of two consecutive pipes.
This is the action of the python-engine regex separator on one line of
the text file. -/
def splitOnPP : List Char → List (List Char)
  | [] => [[]]
  | [x] => [[x]]
  | x :: y :: xs =>
    if x = '|' ∧ y = '|' then [] :: splitOnPP xs
    else
      match splitOnPP (y :: xs) with
      | [] => [[]]
      | z :: zs => (x :: z) :: zs

/-- Concatenation of newline-terminated lines, the way sequential
`f.write` calls build the character content of a file. -/
def joinLinesNL (ls : List (List Char)) : List Char :=
  ls.foldr (fun l acc => l ++ '\n' :: acc) []

/-! Lemmas about the character utilities. -/

theorem digitChar_lt_ten (d : Nat) (h : d < 10) :
    (digitChar d).isDigit = true ∧ digitChar d ≠ ',' ∧ digitChar d ≠ '\n' ∧
      digitChar d ≠ '|' ∧ (digitChar d).toNat - 48 = d := by
  interval_cases d <;> decide

theorem natCharsAux_acc_ne_nil (fuel n : Nat) (acc : List Char) (h : acc ≠ []) :
    natCharsAux fuel n acc ≠ [] := by
  induction fuel generalizing n acc with
  | zero => simpa [natCharsAux] using h
  | succ fuel ih =>
    simp only [natCharsAux]
    split
    · simp
    · exact ih _ _ (by simp)

theorem natCharsAux_fuel (n : Nat) :
    ∀ fuel acc, n < fuel → natCharsAux fuel n acc = natChars n ++ acc := by
  induction n using Nat.strong_induction_on with
  | _ n ih =>
    intro fuel acc h
    obtain ⟨f, rfl⟩ : ∃ f, fuel = f + 1 := ⟨fuel - 1, by omega⟩
    by_cases h10 : n < 10
    · simp [natCharsAux, natChars, h10]
    · have hdiv : n / 10 < n := Nat.div_lt_self (by omega) (by omega)
      have h1 : natCharsAux (f + 1) n acc
          = natCharsAux f (n / 10) (digitChar (n % 10) :: acc) := by
        simp [natCharsAux, h10]
      have h2 : natChars n = natCharsAux n (n / 10) [digitChar (n % 10)] := by
        simp [natChars, natCharsAux, h10]
      rw [h1, ih (n / 10) hdiv f _ (by omega), h2, ih (n / 10) hdiv n _ (by omega)]
      simp

/-- Recurrence satisfied by the decimal rendering. -/
theorem natChars_eq (n : Nat) :
    natChars n =
      if n < 10 then [digitChar (n % 10)]
      else natChars (n / 10) ++ [digitChar (n % 10)] := by
  by_cases h10 : n < 10
  · simp [natChars, natCharsAux, h10]
  · have : natChars n = natCharsAux n (n / 10) [digitChar (n % 10)] := by
      simp [natChars, natCharsAux, h10]
    rw [this, natCharsAux_fuel _ _ _ (by omega)]
    simp [h10]

theorem natChars_ne_nil (n : Nat) : natChars n ≠ [] := by
  rw [natChars_eq]
  split <;> simp

theorem natChars_digits (n : Nat) :
    ∀ c ∈ natChars n, ∃ d, d < 10 ∧ c = digitChar d := by
  induction n using Nat.strong_induction_on with
  | _ n ih =>
    rw [natChars_eq]
    split
    · intro c hc
      simp only [List.mem_singleton] at hc
      exact ⟨n % 10, by omega, hc⟩
    · intro c hc
      rcases List.mem_append.1 hc with h | h
      · exact ih (n / 10) (Nat.div_lt_self (by omega) (by omega)) c h
      · simp only [List.mem_singleton] at h
        exact ⟨n % 10, by omega, h⟩

theorem natChars_not_comma (n : Nat) : ',' ∉ natChars n := by
  intro h
  obtain ⟨d, hd, hc⟩ := natChars_digits n ',' h
  exact (digitChar_lt_ten d hd).2.1 hc.symm

theorem natChars_not_newline (n : Nat) : '\n' ∉ natChars n := by
  intro h
  obtain ⟨d, hd, hc⟩ := natChars_digits n '\n' h
  exact (digitChar_lt_ten d hd).2.2.1 hc.symm

theorem natChars_not_pipe (n : Nat) : '|' ∉ natChars n := by
  intro h
  obtain ⟨d, hd, hc⟩ := natChars_digits n '|' h
  exact (digitChar_lt_ten d hd).2.2.2.1 hc.symm

theorem digitsVal_append (l1 l2 : List Char) (acc : Nat) :
    digitsVal (l1 ++ l2) acc =
      match digitsVal l1 acc with
      | some a => digitsVal l2 a
      | none => none := by
  induction l1 generalizing acc with
  | nil => simp [digitsVal]
  | cons c cs ih =>
    simp only [List.cons_append, digitsVal]
    split
    · exact ih _
    · rfl

theorem digitsVal_natChars (n acc : Nat) :
    digitsVal (natChars n) acc = some (acc * 10 ^ (natChars n).length + n) := by
  induction n using Nat.strong_induction_on with
  | _ n ih =>
    by_cases h10 : n < 10
    · rw [natChars_eq]
      simp only [h10, if_pos]
      have hd := digitChar_lt_ten (n % 10) (by omega)
      simp [digitsVal, hd.1, hd.2.2.2.2]
      omega
    · have hrec := natChars_eq n
      rw [if_neg h10] at hrec
      rw [hrec, digitsVal_append, ih (n / 10) (Nat.div_lt_self (by omega) (by omega))]
      have hd := digitChar_lt_ten (n % 10) (by omega)
      simp [digitsVal, hd.1, hd.2.2.2.2, List.length_append, pow_succ]
      have hmod := Nat.div_add_mod n 10
      set L := (natChars (n / 10)).length
      ring_nf
      omega

/-- Parsing is a left inverse of decimal rendering. -/
theorem natOfChars_natChars (n : Nat) : natOfChars? (natChars n) = some n := by
  have h := natChars_ne_nil n
  rw [natOfChars?, if_neg (by simpa [List.isEmpty_iff] using h), digitsVal_natChars]
  simp

/-! Lemmas about `List.splitOn` on character lists. -/

theorem splitOn_sep_append (x : Char) (xs as : List Char) (h : x ∉ xs) :
    (xs ++ x :: as).splitOn x = xs :: as.splitOn x := by
  simp only [List.splitOn]
  exact List.splitOnP_first _ _
    (fun y hy => by simp only [beq_iff_eq]; rintro rfl; exact h hy) x (by simp) as

theorem splitOn_eq_single (x : Char) (xs : List Char) (h : x ∉ xs) :
    xs.splitOn x = [xs] := by
  simp only [List.splitOn]
  exact List.splitOnP_eq_single _ _
    (fun y hy => by simp only [beq_iff_eq]; rintro rfl; exact h hy)

theorem splitOn_joinLinesNL (ls : List (List Char)) (h : ∀ l ∈ ls, '\n' ∉ l) :
    (joinLinesNL ls).splitOn '\n' = ls ++ [[]] := by
  induction ls with
  | nil => simp [joinLinesNL]
  | cons l ls ih =>
    have hl : '\n' ∉ l := h l (by simp)
    have : joinLinesNL (l :: ls) = l ++ '\n' :: joinLinesNL ls := rfl
    rw [this, splitOn_sep_append _ _ _ hl, ih (fun m hm => h m (by simp [hm]))]
    simp

theorem splitOnPP_of_not_mem (l : List Char) (h : '|' ∉ l) : splitOnPP l = [l] := by
  induction l with
  | nil => rfl
  | cons x xs ih =>
    have hx : x ≠ '|' := fun e => h (by simp [e])
    cases xs with
    | nil => rfl
    | cons y ys =>
      have ih' := ih (fun hm => h (List.mem_cons_of_mem _ hm))
      simp only [splitOnPP]
      rw [if_neg (fun hc => hx hc.1), ih']

theorem splitOnPP_cons_cons (x y : Char) (xs : List Char) :
    splitOnPP (x :: y :: xs) =
      if x = '|' ∧ y = '|' then [] :: splitOnPP xs
      else
        match splitOnPP (y :: xs) with
        | [] => [[]]
        | z :: zs => (x :: z) :: zs := by
  simp [splitOnPP]

theorem splitOnPP_append (l1 l2 : List Char) (h : '|' ∉ l1) :
    splitOnPP (l1 ++ '|' :: '|' :: l2) = l1 :: splitOnPP l2 := by
  induction l1 with
  | nil => simp [splitOnPP]
  | cons a l1 ih =>
    have ha : a ≠ '|' := fun e => h (by simp [e])
    have ih' := ih (fun hm => h (List.mem_cons_of_mem _ hm))
    cases l1 with
    | nil =>
      simp only [List.nil_append] at ih'
      simp only [List.cons_append, List.nil_append]
      rw [splitOnPP_cons_cons, if_neg (fun hc => ha hc.1), ih']
    | cons b l1' =>
      simp only [List.cons_append] at ih'
      simp only [List.cons_append]
      rw [splitOnPP_cons_cons, if_neg (fun hc => ha hc.1), ih']

/-! The data model: rows of the two tables and of the merged table. -/

/-- One row of the variants table: the ID and Class columns.  The Gene and
Variation columns are carried by the file but not read by any helper. -/
structure VariantRow where
  id : Nat
  cls : Nat
deriving DecidableEq, Inhabited

/-- One row of the text table: the ID and Text columns. -/
structure TextRow where
  id : Nat
  text : List Char
deriving DecidableEq, Inhabited

/-- One row of the merged table produced by `get_full_table`. -/
structure FullRow where
  id : Nat
  cls : Nat
  text : List Char
deriving DecidableEq, Inhabited

/-- Models `pd.read_csv(variants_file)`: the first line is a header of
comma-separated column names, every following nonblank line is split on
commas, and the ID and Class columns are located by name in the header.
A missing column or a field that does not parse as an integer produces
the error the pandas pipeline raises there. -/
def parse_variant_line (idIdx clsIdx : Nat) (line : List Char) :
    Except String VariantRow :=
  match (line.splitOn ',')[idIdx]?, (line.splitOn ',')[clsIdx]? with
  | some a, some b =>
    match natOfChars? a, natOfChars? b with
    | some i, some c => Except.ok { id := i, cls := c }
    | _, _ => Except.error "ValueError"
  | _, _ => Except.error "ParserError"

def read_variants_csv (content : List Char) : Except String (List VariantRow) :=
  match content.splitOn '\n' with
  | [] => Except.error "EmptyDataError"
  | header :: rest =>
    match (header.splitOn ',').findIdx? (fun c => c = "ID".toList),
        (header.splitOn ',').findIdx? (fun c => c = "Class".toList) with
    | some idIdx, some clsIdx =>
      (rest.filter (fun l => !l.isEmpty)).mapM (parse_variant_line idIdx clsIdx)
    | _, _ => Except.error "KeyError"

/-- Models `pd.read_csv(text_file, sep="\|\|", engine="python", skiprows=1,
names=["ID", "Text"])`: the first line is skipped, every following
nonblank line is split on the two-character separator into an ID field
and a Text field. -/
def parse_text_line (line : List Char) : Except String TextRow :=
  match splitOnPP line with
  | [a, b] =>
    match natOfChars? a with
    | some i => Except.ok { id := i, text := b }
    | none => Except.error "ValueError"
  | _ => Except.error "ParserError"

def read_text_csv (content : List Char) : Except String (List TextRow) :=
  match content.splitOn '\n' with
  | [] => Except.error "EmptyDataError"
  | _header :: rest =>
    (rest.filter (fun l => !l.isEmpty)).mapM parse_text_line

/-- Models `pd.read_csv(index_file, names=['ID','ID2'])` followed by
`list(... ['ID'])`: no line is skipped, and the ID column is the first
comma-separated field of each nonblank line. -/
def parse_index_line (line : List Char) : Except String Nat :=
  match natOfChars? ((line.splitOn ',').headD []) with
  | some i => Except.ok i
  | none => Except.error "ValueError"

def read_index (content : List Char) : Except String (List Nat) :=
  ((content.splitOn '\n').filter (fun l => !l.isEmpty)).mapM parse_index_line

/-! Generic lemmas about `mapM` over `Except`. -/

theorem mapM_ok {α β : Type} (f : α → Except String β) (g : α → β) (l : List α)
    (h : ∀ a ∈ l, f a = Except.ok (g a)) : l.mapM f = Except.ok (l.map g) := by
  induction l with
  | nil => rfl
  | cons a l ih =>
    rw [List.mapM_cons, h a (by simp), ih (fun a ha => h a (by simp [ha]))]
    rfl

theorem mapM_error {α β : Type} (f : α → Except String β) (l : List α) (e : String)
    (hall : ∀ a ∈ l, (∃ b, f a = Except.ok b) ∨ f a = Except.error e)
    (hex : ∃ a ∈ l, f a = Except.error e) : l.mapM f = Except.error e := by
  induction l with
  | nil => simp at hex
  | cons a l ih =>
    rw [List.mapM_cons]
    rcases hall a (by simp) with ⟨b, hb⟩ | hb
    · obtain ⟨a', ha', he'⟩ := hex
      rcases List.mem_cons.1 ha' with rfl | ha'
      · rw [hb] at he'; cases he'
      · rw [hb, ih (fun x hx => hall x (by simp [hx])) ⟨a', ha', he'⟩]
        rfl
    · rw [hb]
      rfl

/-! The operations of `helpers.py` on loaded frames. -/

/-- Models line 20: the ID column of the variant rows whose Class is `cls`. -/
def matching_ids (variants : List VariantRow) (cls : Nat) : List Nat :=
  (variants.filter (fun v => v.cls == cls)).map (fun v => v.id)

/-- Models line 21: the text rows whose ID is among the matching IDs. -/
def class_text (variants : List VariantRow) (texts : List TextRow) (cls : Nat) :
    List TextRow :=
  texts.filter (fun t => (matching_ids variants cls).contains t.id)

/-- Models `Series.unique`: the distinct values in order of first appearance. -/
def pdUnique (l : List (List Char)) : List (List Char) :=
  l.foldl (fun acc s => if s ∈ acc then acc else acc ++ [s]) []

/-- Models line 23: the distinct Text values of the class. -/
def uniqueTexts (variants : List VariantRow) (texts : List TextRow) (cls : Nat) :
    List (List Char) :=
  pdUnique ((class_text variants texts cls).map (fun t => t.text))

/-- Models `get_unique_text` (the returned string): the newline join of the
distinct texts of the class.  The `save` and `suppress_output` parameters
only print and write the same string to a side file and are not modelled. -/
def get_unique_text (variants : List VariantRow) (texts : List TextRow) (cls : Nat) :
    List Char :=
  List.intercalate ['\n'] (uniqueTexts variants texts cls)

/-- Models `variants.merge(text, how='inner', on='ID')`: for every left row,
one output row per right row carrying the same ID. -/
def mergeInner (variants : List VariantRow) (texts : List TextRow) : List FullRow :=
  variants.flatMap (fun v =>
    (texts.filter (fun t => t.id == v.id)).map
      (fun t => { id := v.id, cls := v.cls, text := t.text }))

/-- Models `get_full_table`: load both files, inner-merge them on ID. -/
def get_full_table (vc tc : List Char) : Except String (List FullRow) := do
  let variants ← read_variants_csv vc
  let text ← read_text_csv tc
  return mergeInner variants text

/-- Models `DataFrame.iloc[positions, :]`: the rows at the given positions,
an IndexError when a position is out of range. -/
def ilocRows {α : Type} (rows : List α) (idxs : List Nat) : Except String (List α) :=
  idxs.mapM (fun i =>
    match rows[i]? with
    | some r => Except.ok r
    | none => Except.error "IndexError")

/-- Models `get_training`: the first argument is the character content of
the hardcoded `./train_index` file, the others the variants and text files. -/
def get_training (idx vc tc : List Char) :
    Except String (List TextRow × List VariantRow) := do
  let train ← read_index idx
  let y ← read_variants_csv vc
  let X ← read_text_csv tc
  let Xr ← ilocRows X train
  let yr ← ilocRows y train
  return (Xr, yr)

/-- Models `get_test`: identical to `get_training` except that the index
content comes from the hardcoded `./test_index` file. -/
def get_test (idx vc tc : List Char) :
    Except String (List TextRow × List VariantRow) := do
  let test ← read_index idx
  let y ← read_variants_csv vc
  let X ← read_text_csv tc
  let Xr ← ilocRows X test
  let yr ← ilocRows y test
  return (Xr, yr)

/-- The pair of in-memory frames a caller holds. -/
structure Frames where
  variants : List VariantRow
  texts : List TextRow
deriving DecidableEq

/-- State-passing form of `get_unique_text`: lines 20 to 24 only read the
two frames (`loc`, `isin`, `unique` and `join` each return a new object,
and the function assigns to neither argument), so the frames come back
beside the string result. -/
def get_unique_text_st (w : Frames) (cls : Nat) : List Char × Frames :=
  (get_unique_text w.variants w.texts cls, w)

/-- State-passing form of the body of `get_full_table` after its two loads:
`merge` returns a new frame and the loaded frames are not reassigned. -/
def get_full_table_st (w : Frames) : List FullRow × Frames :=
  (mergeInner w.variants w.texts, w)

/-! Models of the sklearn routines used by `train_test_split` and
`kfold_score`, and of the `submission` writer. -/

/-- A linear congruential step standing in for the seeded numpy generator. -/
def lcg (n : Nat) : Nat := (1103515245 * n + 12345) % 2147483648

def insertByKey {α : Type} (p : Nat × α) : List (Nat × α) → List (Nat × α)
  | [] => [p]
  | q :: qs => if p.1 ≤ q.1 then p :: q :: qs else q :: insertByKey p qs

def sortByKey {α : Type} (l : List (Nat × α)) : List (Nat × α) :=
  l.foldr insertByKey []

/-- Seed-determined permutation of a list: element at position `i` gets the
pseudo-random key `lcg (seed + i)` and the list is sorted by key. -/
def shuffleBySeed {α : Type} (seed : Nat) (l : List α) : List α :=
  (sortByKey (l.enum.map (fun p => (lcg (seed + p.1), p.2)))).map (fun p => p.2)

def uniqueNat (l : List Nat) : List Nat :=
  l.foldl (fun acc v => if v ∈ acc then acc else acc ++ [v]) []

def insertNat (v : Nat) : List Nat → List Nat
  | [] => [v]
  | x :: xs => if v ≤ x then v :: x :: xs else x :: insertNat v xs

def sortNat (l : List Nat) : List Nat := l.foldr insertNat []

/-- Models `sklearn.model_selection.train_test_split(X, y, test_size=0.2,
random_state=r, stratify=y.Class)`.  When `randomState` is `some r` the
ambient global seed is ignored and the permutation is a function of `r`
and the data alone; rows are grouped by class and a fifth of every group
goes to the test side.  The exact permutation the library draws is not
reproduced; its determinism in the seed is. -/
def sk_train_test_split (globalSeed : Nat) (randomState : Option Nat)
    (X : List TextRow) (y : List VariantRow) :
    List TextRow × List TextRow × List VariantRow × List VariantRow :=
  let seed := randomState.getD globalSeed
  let pairs := X.zip y
  let classes := sortNat (uniqueNat (y.map (fun v => v.cls)))
  let shuffled := classes.map (fun c =>
    shuffleBySeed seed (pairs.filter (fun p => p.2.cls == c)))
  let testPairs := (shuffled.map (fun g => g.take (g.length / 5))).flatten
  let trainPairs := (shuffled.map (fun g => g.drop (g.length / 5))).flatten
  (trainPairs.map (fun p => p.1), testPairs.map (fun p => p.1),
   trainPairs.map (fun p => p.2), testPairs.map (fun p => p.2))

/-- Models `train_test_split` of `helpers.py`: load the two files, then call
the library splitter with the literal `random_state=42`.  The `globalSeed`
argument is the ambient numpy generator state an unseeded call would draw
from. -/
def train_test_split (globalSeed : Nat) (vc tc : List Char) :
    Except String (List TextRow × List TextRow × List VariantRow × List VariantRow) := do
  let y ← read_variants_csv vc
  let X ← read_text_csv tc
  return sk_train_test_split globalSeed (some 42) X y

/-- Mean of a list of rationals, `np.mean`. -/
def listMean (l : List ℚ) : ℚ := l.sum / l.length

/-- Clipping of a probability to `[eps, 1 - eps]` with `eps = 1e-15`. -/
def clipProb (p : ℚ) : ℚ := max (1 / 10 ^ 15) (min (1 - 1 / 10 ^ 15) p)

/-- Clipping and renormalization applied to one row of predictions inside
`log_loss`. -/
def normRow (row : List ℚ) : List ℚ :=
  (row.map clipProb).map (fun p => p / (row.map clipProb).sum)

/-- Models `sklearn.metrics.log_loss`: predictions are clipped, rows are
renormalized, and the mean over samples of `-sum y * log p` is returned.
The real logarithm is a parameter of the embedding. -/
def log_loss (log : ℚ → ℚ) (y_true y_prob : List (List ℚ)) : ℚ :=
  listMean ((y_true.zip (y_prob.map normRow)).map (fun rp =>
    ((rp.1.zip rp.2).map (fun yp => -(yp.1 * log yp.2))).sum))

/-- Models `LabelBinarizer().fit(y)` followed by `transform`: one-hot rows
against the sorted distinct labels, a single 0/1 column when there are
exactly two labels. -/
def lb_transform (classes : List Nat) (y : List Nat) : List (List ℚ) :=
  if classes.length = 2 then
    y.map (fun v => [if v = classes.getD 1 0 then (1 : ℚ) else 0])
  else
    y.map (fun v => classes.map (fun c => if v = c then (1 : ℚ) else 0))

/-- First sample position of fold `i` of `KFold(n_splits=s)` on `n` samples:
the first `n mod s` folds have one extra element. -/
def foldStart (n s i : Nat) : Nat := i * (n / s) + min i (n % s)

/-- Test positions of fold `i`. -/
def kfoldTest (n s i : Nat) : List Nat :=
  List.range' (foldStart n s i) (foldStart n s (i + 1) - foldStart n s i)

/-- Train positions of fold `i`: everything outside the test block. -/
def kfoldTrain (n s i : Nat) : List Nat :=
  (List.range n).filter (fun j =>
    decide (j < foldStart n s i) || decide (foldStart n s (i + 1) ≤ j))

/-- The per-fold log-losses of `kfold_score`: for every fold the classifier
is fit on the train block and `log_loss` is taken against the binarized
test labels.  `clf Xtr ytr Xte` stands for
`clf.fit(Xtr, ytr).predict_proba(Xte)` and `dflt` is the junk value an
out-of-range position would read (positions are in range by construction). -/
def foldValues {α : Type} (log : ℚ → ℚ)
    (clf : List α → List Nat → List α → List (List ℚ))
    (dflt : α) (X : List α) (y : List Nat) (splits : Nat) : List ℚ :=
  (List.range splits).map (fun i =>
    log_loss log
      (lb_transform (sortNat (uniqueNat y))
        ((kfoldTest X.length splits i).map (fun j => y.getD j 0)))
      (clf ((kfoldTrain X.length splits i).map (fun j => X.getD j dflt))
        ((kfoldTrain X.length splits i).map (fun j => y.getD j 0))
        ((kfoldTest X.length splits i).map (fun j => X.getD j dflt))))

/-- Models `kfold_score`: the mean over the folds of the per-fold log-loss. -/
def kfold_score {α : Type} (log : ℚ → ℚ)
    (clf : List α → List Nat → List α → List (List ℚ))
    (dflt : α) (X : List α) (y : List Nat) (splits : Nat) : ℚ :=
  listMean (foldValues log clf dflt X y splits)

/-- The header line `submission` writes first. -/
def submissionHeader : List Char :=
  ("ID,class1,class2,class3,class4,class5,class6,class7,class8,class9").toList

/-- Characters written by the inner loop of `submission` for one row: every
entry of the row, followed by a comma exactly when its column index is
below 8. -/
def submissionRowBody {α : Type} (render : α → List Char) (row : List α) : List Char :=
  (row.enum.map (fun p => render p.2 ++ if p.1 < 8 then [','] else [])).flatten

/-- The characters of the data line for row `i`: `str(i)`, a comma, then the
inner loop output. -/
def submissionLine {α : Type} (render : α → List Char) (i : Nat) (row : List α) :
    List Char :=
  natChars i ++ ',' :: submissionRowBody render row

/-- Character content of the file written by `submission(filename, m)`.
`render` stands for python `str` on the matrix entries; the matrix is the
list of its rows. -/
def submission {α : Type} (render : α → List Char) (m : List (List α)) : List Char :=
  joinLinesNL (submissionHeader :: m.enum.map (fun p => submissionLine render p.1 p.2))

/-! Helper lemmas about `pdUnique`. -/

theorem pdUnique_foldl_subset (l : List (List Char)) :
    ∀ acc s, s ∈ l.foldl (fun acc s => if s ∈ acc then acc else acc ++ [s]) acc →
      s ∈ acc ∨ s ∈ l := by
  induction l with
  | nil => intro acc s hs; exact Or.inl hs
  | cons a l ih =>
    intro acc s hs
    rcases ih _ s hs with h | h
    · dsimp only at h
      by_cases ha : a ∈ acc
      · rw [if_pos ha] at h; exact Or.inl h
      · rw [if_neg ha] at h
        rcases List.mem_append.1 h with h | h
        · exact Or.inl h
        · simp only [List.mem_singleton] at h
          exact Or.inr (by simp [h])
    · exact Or.inr (by simp [h])

theorem pdUnique_subset (l : List (List Char)) : ∀ s ∈ pdUnique l, s ∈ l := by
  intro s hs
  rcases pdUnique_foldl_subset l [] s hs with h | h
  · simp at h
  · exact h

theorem pdUnique_foldl_nodup (l : List (List Char)) :
    ∀ acc, acc.Nodup →
      (l.foldl (fun acc s => if s ∈ acc then acc else acc ++ [s]) acc).Nodup := by
  induction l with
  | nil => intro acc h; exact h
  | cons a l ih =>
    intro acc h
    apply ih
    dsimp only
    by_cases ha : a ∈ acc
    · rw [if_pos ha]; exact h
    · rw [if_neg ha]
      simp only [List.nodup_append, List.nodup_cons, List.nodup_nil]
      refine ⟨h, by simp, ?_⟩
      intro x hx hxa
      simp only [List.mem_singleton] at hxa
      exact ha (hxa ▸ hx)

theorem pdUnique_nodup (l : List (List Char)) : (pdUnique l).Nodup :=
  pdUnique_foldl_nodup l [] List.nodup_nil

/-- C2: every text in the string returned by `get_unique_text` comes from a
row of the text table whose ID carries class label `cls` in the variants
table, and no text appears twice: the returned string is the newline join
of a duplicate-free list of texts, each drawn from such a row. -/
theorem get_unique_text_class_and_unique :
    ∀ (variants : List VariantRow) (texts : List TextRow) (cls : Nat),
      (∀ s ∈ uniqueTexts variants texts cls,
        ∃ t ∈ texts, t.text = s ∧ ∃ v ∈ variants, v.id = t.id ∧ v.cls = cls) ∧
      (uniqueTexts variants texts cls).Nodup ∧
      get_unique_text variants texts cls
        = List.intercalate ['\n'] (uniqueTexts variants texts cls) := by
  intro variants texts cls
  refine ⟨?_, pdUnique_nodup _, rfl⟩
  intro s hs
  have hs' := pdUnique_subset _ s hs
  obtain ⟨t, ht, rfl⟩ := List.mem_map.1 hs'
  have ht' := List.mem_filter.1 ht
  refine ⟨t, ht'.1, rfl, ?_⟩
  have hid : t.id ∈ matching_ids variants cls := by
    have := ht'.2
    simpa [List.contains, List.elem_iff] using this
  obtain ⟨v, hv, hvid⟩ := List.mem_map.1 hid
  have hv' := List.mem_filter.1 hv
  exact ⟨v, hv'.1, hvid, by simpa using hv'.2⟩

/-- C8: no helper mutates a frame after load: the state-passing forms of
`get_unique_text` and of the merge step of `get_full_table` return the
frames exactly as they received them, beside the computed result. -/
theorem frames_unchanged :
    ∀ (w : Frames) (cls : Nat),
      (get_unique_text_st w cls).2 = w ∧
      (get_unique_text_st w cls).1 = get_unique_text w.variants w.texts cls ∧
      (get_full_table_st w).2 = w ∧
      (get_full_table_st w).1 = mergeInner w.variants w.texts := by
  intro w cls
  exact ⟨rfl, rfl, rfl, rfl⟩

/-- C10: `train_test_split` is deterministic: its result does not depend on
the ambient numpy generator state, because the library splitter is called
with the fixed `random_state=42`. -/
theorem train_test_split_deterministic :
    ∀ (g1 g2 : Nat) (vc tc : List Char),
      train_test_split g1 vc tc = train_test_split g2 vc tc := by
  intro g1 g2 vc tc
  rfl

/-! Composition lemmas for the file-loading helpers. -/

theorem get_full_table_ok (vc tc : List Char) (vs : List VariantRow) (ts : List TextRow)
    (h1 : read_variants_csv vc = Except.ok vs) (h2 : read_text_csv tc = Except.ok ts) :
    get_full_table vc tc = Except.ok (mergeInner vs ts) := by
  unfold get_full_table
  rw [h1, h2]
  rfl

theorem ilocRows_ok {α : Type} [Inhabited α] (rows : List α) (idxs : List Nat)
    (h : ∀ i ∈ idxs, i < rows.length) :
    ilocRows rows idxs = Except.ok (idxs.map (fun i => rows.getD i default)) := by
  apply mapM_ok
  intro i hi
  have hl := h i hi
  simp [List.getElem?_eq_getElem hl, List.getD_eq_getElem?_getD]

theorem ilocRows_oob {α : Type} (rows : List α) (idxs : List Nat)
    (h : ∃ i ∈ idxs, rows.length ≤ i) :
    ilocRows rows idxs = Except.error "IndexError" := by
  apply mapM_error
  · intro i hi
    cases hri : rows[i]? with
    | some r => exact Or.inl ⟨r, by simp [hri]⟩
    | none => exact Or.inr (by simp [hri])
  · obtain ⟨i, hi, hlen⟩ := h
    exact ⟨i, hi, by simp [List.getElem?_eq_none hlen]⟩

/-- C1: `get_full_table` is an inner join on ID: any sample ID missing from
either loaded table never appears in a row of the returned table. -/
theorem get_full_table_inner_join :
    ∀ (vc tc : List Char) (vs : List VariantRow) (ts : List TextRow)
      (rows : List FullRow) (i : Nat),
      read_variants_csv vc = Except.ok vs →
      read_text_csv tc = Except.ok ts →
      get_full_table vc tc = Except.ok rows →
      ((∀ v ∈ vs, v.id ≠ i) ∨ (∀ t ∈ ts, t.id ≠ i)) →
      ∀ r ∈ rows, r.id ≠ i := by
  intro vc tc vs ts rows i h1 h2 h3 hdisj r hr
  rw [get_full_table_ok vc tc vs ts h1 h2] at h3
  obtain rfl : mergeInner vs ts = rows := by
    simpa using h3
  obtain ⟨v, hv, hrv⟩ := List.mem_flatMap.1 hr
  obtain ⟨t, ht, rfl⟩ := List.mem_map.1 hrv
  have ht' := List.mem_filter.1 ht
  have hid : t.id = v.id := by simpa using ht'.2
  rcases hdisj with hL | hR
  · exact hL v hv
  · simpa [hid] using hR t ht'.1

/-- C6: `get_training` and `get_test` select rows by position: given the
parsed index list, each returns exactly the text and variants rows whose
positions are listed, in order, reading the entries as row positions (not
as sample-ID values). -/
theorem get_training_test_by_position :
    ∀ (idxc vc tc : List Char) (idxs : List Nat) (X : List TextRow) (y : List VariantRow),
      read_index idxc = Except.ok idxs →
      read_variants_csv vc = Except.ok y →
      read_text_csv tc = Except.ok X →
      (∀ i ∈ idxs, i < X.length ∧ i < y.length) →
      get_training idxc vc tc
          = Except.ok (idxs.map (fun i => X.getD i default),
              idxs.map (fun i => y.getD i default)) ∧
      get_test idxc vc tc
          = Except.ok (idxs.map (fun i => X.getD i default),
              idxs.map (fun i => y.getD i default)) := by
  intro idxc vc tc idxs X y h1 h2 h3 hrange
  have hX := ilocRows_ok X idxs (fun i hi => (hrange i hi).1)
  have hy := ilocRows_ok y idxs (fun i hi => (hrange i hi).2)
  constructor
  · unfold get_training
    rw [h1, h2, h3]
    show (ilocRows X idxs >>= fun Xr => ilocRows y idxs >>= fun yr => pure (Xr, yr)) = _
    rw [hX, hy]
    rfl
  · unfold get_test
    rw [h1, h2, h3]
    show (ilocRows X idxs >>= fun Xr => ilocRows y idxs >>= fun yr => pure (Xr, yr)) = _
    rw [hX, hy]
    rfl

/-- C7: no helper catches, retries or recovers from a failing library call:
an error from the variants read, the text read or the index read is
returned unchanged by `get_full_table`, `train_test_split` (for every
ambient seed), `get_training` and `get_test`, and an out-of-range
position makes `get_training` return the IndexError of the positional
lookup. -/
theorem helpers_propagate_errors :
    ∀ (idxc vc tc : List Char) (e : String),
      (read_variants_csv vc = Except.error e →
        get_full_table vc tc = Except.error e) ∧
      (∀ vs, read_variants_csv vc = Except.ok vs →
        read_text_csv tc = Except.error e →
        get_full_table vc tc = Except.error e) ∧
      (read_variants_csv vc = Except.error e →
        ∀ g, train_test_split g vc tc = Except.error e) ∧
      (∀ vs, read_variants_csv vc = Except.ok vs →
        read_text_csv tc = Except.error e →
        ∀ g, train_test_split g vc tc = Except.error e) ∧
      (read_index idxc = Except.error e →
        get_training idxc vc tc = Except.error e ∧
        get_test idxc vc tc = Except.error e) ∧
      (∀ idxs vs ts, read_index idxc = Except.ok idxs →
        read_variants_csv vc = Except.ok vs →
        read_text_csv tc = Except.ok ts →
        (∃ i ∈ idxs, ts.length ≤ i) →
        get_training idxc vc tc = Except.error "IndexError") := by
  intro idxc vc tc e
  refine ⟨?_, ?_, ?_, ?_, ?_, ?_⟩
  · intro h
    unfold get_full_table
    rw [h]
    rfl
  · intro vs h1 h2
    unfold get_full_table
    rw [h1, h2]
    rfl
  · intro h g
    unfold train_test_split
    rw [h]
    rfl
  · intro vs h1 h2 g
    unfold train_test_split
    rw [h1, h2]
    rfl
  · intro h
    constructor
    · unfold get_training
      rw [h]
      rfl
    · unfold get_test
      rw [h]
      rfl
  · intro idxs vs ts h1 h2 h3 hex
    unfold get_training
    rw [h1, h2, h3]
    show (ilocRows ts idxs >>= fun Xr => ilocRows vs idxs >>= fun yr => pure (Xr, yr)) = _
    rw [ilocRows_oob ts idxs hex]
    rfl

/-! Well-formed file contents for the format claims. -/

/-- One physical line of the variants file: the four columns of the header
`ID,Gene,Variation,Class`. -/
structure VariantLine where
  id : Nat
  gene : List Char
  variation : List Char
  cls : Nat
deriving DecidableEq

/-- The header of the variants file. -/
def variantsHeader : List Char := ("ID,Gene,Variation,Class").toList

/-- A variants file holding the given rows. -/
def mkVariantsContent (rows : List VariantLine) : List Char :=
  joinLinesNL (variantsHeader ::
    rows.map (fun r =>
      natChars r.id ++ ',' :: (r.gene ++ ',' :: (r.variation ++ ',' :: natChars r.cls))))

/-- A text file with an arbitrary first line and one `id||text` line per row. -/
def mkTextContent (header : List Char) (rows : List TextRow) : List Char :=
  joinLinesNL (header :: rows.map (fun r => natChars r.id ++ '|' :: '|' :: r.text))

theorem mapM_map_ok {α β γ : Type} (f : β → Except String γ) (h : α → β) (g : α → γ)
    (l : List α) (hfa : ∀ a ∈ l, f (h a) = Except.ok (g a)) :
    (l.map h).mapM f = Except.ok (l.map g) := by
  induction l with
  | nil => rfl
  | cons a l ih =>
    rw [List.map_cons, List.mapM_cons, hfa a (by simp),
      ih (fun x hx => hfa x (by simp [hx]))]
    rfl

theorem parse_text_line_mk (r : TextRow) (hp : '|' ∉ r.text) :
    parse_text_line (natChars r.id ++ '|' :: '|' :: r.text) = Except.ok r := by
  unfold parse_text_line
  rw [splitOnPP_append _ _ (natChars_not_pipe _), splitOnPP_of_not_mem _ hp]
  rw [show (natChars r.id :: [r.text] : List (List Char)) = [natChars r.id, r.text] from rfl]
  simp only [natOfChars_natChars]

theorem read_text_csv_mk (header : List Char) (rows : List TextRow)
    (hh : '\n' ∉ header)
    (hr : ∀ r ∈ rows, '\n' ∉ r.text ∧ '|' ∉ r.text) :
    read_text_csv (mkTextContent header rows) = Except.ok rows := by
  have hlines : ∀ l ∈ (header :: rows.map (fun r => natChars r.id ++ '|' :: '|' :: r.text)),
      '\n' ∉ l := by
    intro l hl
    rcases List.mem_cons.1 hl with rfl | hl
    · exact hh
    · obtain ⟨r, hrm, rfl⟩ := List.mem_map.1 hl
      intro hmem
      rcases List.mem_append.1 hmem with h | h
      · exact natChars_not_newline _ h
      · rcases List.mem_cons.1 h with h | h
        · exact absurd h (by decide)
        · rcases List.mem_cons.1 h with h | h
          · exact absurd h (by decide)
          · exact (hr r hrm).1 h
  have hsplit := splitOn_joinLinesNL _ hlines
  unfold read_text_csv mkTextContent
  rw [hsplit, List.cons_append]
  show (((rows.map (fun (r : TextRow) => natChars r.id ++ '|' :: '|' :: r.text)) ++ [[]]).filter
      (fun (l : List Char) => !l.isEmpty)).mapM parse_text_line = Except.ok rows
  rw [List.filter_append]
  have hfe : (([[]] : List (List Char)).filter (fun l => !l.isEmpty)) = [] := rfl
  have hfs : ((rows.map (fun r => natChars r.id ++ '|' :: '|' :: r.text)).filter
      (fun l => !l.isEmpty)) = rows.map (fun r => natChars r.id ++ '|' :: '|' :: r.text) := by
    apply List.filter_eq_self.2
    intro l hl
    obtain ⟨r, hrm, rfl⟩ := List.mem_map.1 hl
    have hne : natChars r.id ++ '|' :: '|' :: r.text ≠ [] := by
      intro hnil
      exact natChars_ne_nil r.id (List.append_eq_nil.1 hnil).1
    simp [hne]
  rw [hfs, hfe, List.append_nil]
  have hres := mapM_map_ok parse_text_line
    (fun r => natChars r.id ++ '|' :: '|' :: r.text) id rows
    (fun r hrm => parse_text_line_mk r (hr r hrm).2)
  simpa using hres

theorem variant_line_split (r : VariantLine) (hg : ',' ∉ r.gene) (hv : ',' ∉ r.variation) :
    (natChars r.id ++ ',' :: (r.gene ++ ',' :: (r.variation ++ ',' :: natChars r.cls))).splitOn ','
      = [natChars r.id, r.gene, r.variation, natChars r.cls] := by
  rw [splitOn_sep_append _ _ _ (natChars_not_comma _),
    splitOn_sep_append _ _ _ hg,
    splitOn_sep_append _ _ _ hv,
    splitOn_eq_single _ _ (natChars_not_comma _)]

theorem parse_variant_line_mk (r : VariantLine) (hg : ',' ∉ r.gene) (hv : ',' ∉ r.variation) :
    parse_variant_line 0 3
        (natChars r.id ++ ',' :: (r.gene ++ ',' :: (r.variation ++ ',' :: natChars r.cls)))
      = Except.ok { id := r.id, cls := r.cls } := by
  unfold parse_variant_line
  rw [variant_line_split r hg hv]
  simp only [List.getElem?_cons_zero, List.getElem?_cons_succ, natOfChars_natChars]

theorem read_variants_csv_mk (rows : List VariantLine)
    (hr : ∀ r ∈ rows, ('\n' ∉ r.gene ∧ ',' ∉ r.gene) ∧
      ('\n' ∉ r.variation ∧ ',' ∉ r.variation)) :
    read_variants_csv (mkVariantsContent rows)
      = Except.ok (rows.map (fun r => ({ id := r.id, cls := r.cls } : VariantRow))) := by
  have hlines : ∀ l ∈ (variantsHeader :: rows.map (fun (r : VariantLine) =>
      natChars r.id ++ ',' :: (r.gene ++ ',' :: (r.variation ++ ',' :: natChars r.cls)))),
      '\n' ∉ l := by
    intro l hl
    rcases List.mem_cons.1 hl with rfl | hl
    · decide
    · obtain ⟨r, hrm, rfl⟩ := List.mem_map.1 hl
      intro hmem
      rcases List.mem_append.1 hmem with h | h
      · exact natChars_not_newline _ h
      · rcases List.mem_cons.1 h with h | h
        · exact absurd h (by decide)
        · rcases List.mem_append.1 h with h | h
          · exact ((hr r hrm).1.1) h
          · rcases List.mem_cons.1 h with h | h
            · exact absurd h (by decide)
            · rcases List.mem_append.1 h with h | h
              · exact ((hr r hrm).2.1) h
              · rcases List.mem_cons.1 h with h | h
                · exact absurd h (by decide)
                · exact natChars_not_newline _ h
  have hsplit := splitOn_joinLinesNL _ hlines
  unfold read_variants_csv mkVariantsContent
  rw [hsplit, List.cons_append]
  show ((rows.map (fun (r : VariantLine) =>
      natChars r.id ++ ',' :: (r.gene ++ ',' :: (r.variation ++ ',' :: natChars r.cls)))
        ++ [[]]).filter (fun (l : List Char) => !l.isEmpty)).mapM (parse_variant_line 0 3)
      = Except.ok (rows.map (fun r => ({ id := r.id, cls := r.cls } : VariantRow)))
  rw [List.filter_append]
  have hfe : (([[]] : List (List Char)).filter (fun l => !l.isEmpty)) = [] := rfl
  have hfs : ((rows.map (fun (r : VariantLine) =>
      natChars r.id ++ ',' :: (r.gene ++ ',' :: (r.variation ++ ',' :: natChars r.cls)))).filter
      (fun (l : List Char) => !l.isEmpty))
      = rows.map (fun (r : VariantLine) =>
        natChars r.id ++ ',' :: (r.gene ++ ',' :: (r.variation ++ ',' :: natChars r.cls))) := by
    apply List.filter_eq_self.2
    intro l hl
    obtain ⟨r, hrm, rfl⟩ := List.mem_map.1 hl
    have hne : natChars r.id ++ ',' :: (r.gene ++ ',' :: (r.variation ++ ',' :: natChars r.cls))
        ≠ [] := by
      intro hnil
      exact natChars_ne_nil r.id (List.append_eq_nil.1 hnil).1
    simp [hne]
  rw [hfs, hfe, List.append_nil]
  exact mapM_map_ok (parse_variant_line 0 3)
    (fun (r : VariantLine) =>
      natChars r.id ++ ',' :: (r.gene ++ ',' :: (r.variation ++ ',' :: natChars r.cls)))
    (fun r => ({ id := r.id, cls := r.cls } : VariantRow)) rows
    (fun r hrm => parse_variant_line_mk r ((hr r hrm).1.2) ((hr r hrm).2.2))

/-- C5: every loader parses the text file as a double-pipe-delimited table
with ID and Text columns skipping the first line, and the variants file as
an ordinary comma-separated table with ID and Class columns resolved from
its header: `read_text_csv` and `read_variants_csv`, the two parsers every
one of `train_test_split`, `get_training`, `get_test` and `get_full_table`
is built from, recover exactly the rows a well-formed file of that shape
encodes. -/
theorem csv_parsing_formats :
    ∀ (header : List Char) (trows : List TextRow) (vrows : List VariantLine),
      '\n' ∉ header →
      (∀ r ∈ trows, '\n' ∉ r.text ∧ '|' ∉ r.text) →
      (∀ r ∈ vrows, ('\n' ∉ r.gene ∧ ',' ∉ r.gene) ∧
        ('\n' ∉ r.variation ∧ ',' ∉ r.variation)) →
      read_text_csv (mkTextContent header trows) = Except.ok trows ∧
      read_variants_csv (mkVariantsContent vrows)
        = Except.ok (vrows.map (fun r => ({ id := r.id, cls := r.cls } : VariantRow))) := by
  intro header trows vrows hh ht hv
  exact ⟨read_text_csv_mk header trows hh ht, read_variants_csv_mk vrows hv⟩

/-! Non-negativity of the log-loss pipeline. -/

theorem listMean_nonneg (l : List ℚ) (h : ∀ x ∈ l, 0 ≤ x) : 0 ≤ listMean l := by
  unfold listMean
  exact div_nonneg (List.sum_nonneg h) (Nat.cast_nonneg _)

theorem clipProb_pos (p : ℚ) : 0 < clipProb p :=
  lt_of_lt_of_le (by norm_num) (le_max_left _ _)

theorem normRow_bounds (row : List ℚ) : ∀ p ∈ normRow row, 0 < p ∧ p ≤ 1 := by
  intro p hp
  obtain ⟨c, hc, rfl⟩ := List.mem_map.1 hp
  obtain ⟨q, hq, rfl⟩ := List.mem_map.1 hc
  have hnn : ∀ x ∈ row.map clipProb, (0 : ℚ) ≤ x := by
    intro x hx
    obtain ⟨q2, hq2, rfl⟩ := List.mem_map.1 hx
    exact (clipProb_pos q2).le
  have hcS : clipProb q ≤ (row.map clipProb).sum :=
    List.single_le_sum hnn _ (List.mem_map_of_mem _ hq)
  have hS : 0 < (row.map clipProb).sum := lt_of_lt_of_le (clipProb_pos q) hcS
  exact ⟨div_pos (clipProb_pos q) hS, (div_le_one hS).2 hcS⟩

theorem log_loss_nonneg (log : ℚ → ℚ) (hlog : ∀ x : ℚ, 0 < x → x ≤ 1 → log x ≤ 0)
    (y_true y_prob : List (List ℚ))
    (hy : ∀ row ∈ y_true, ∀ v ∈ row, 0 ≤ v) :
    0 ≤ log_loss log y_true y_prob := by
  unfold log_loss
  apply listMean_nonneg
  intro x hx
  obtain ⟨rp, hrp, rfl⟩ := List.mem_map.1 hx
  apply List.sum_nonneg
  intro t ht
  obtain ⟨yp, hyp, rfl⟩ := List.mem_map.1 ht
  obtain ⟨y1, p1⟩ := yp
  obtain ⟨hy1, hp1⟩ := List.of_mem_zip hyp
  obtain ⟨r1, r2⟩ := rp
  obtain ⟨hr1, hr2⟩ := List.of_mem_zip hrp
  obtain ⟨row0, hrow0, rfl⟩ := List.mem_map.1 hr2
  have hb := normRow_bounds row0 p1 hp1
  have hlp := hlog p1 hb.1 hb.2
  have hy1n : (0 : ℚ) ≤ y1 := hy r1 hr1 y1 hy1
  show 0 ≤ -(y1 * log p1)
  rw [neg_mul_eq_mul_neg]
  exact mul_nonneg hy1n (neg_nonneg.2 hlp)

theorem lb_transform_nonneg (classes : List Nat) (y : List Nat) :
    ∀ row ∈ lb_transform classes y, ∀ v ∈ row, (0 : ℚ) ≤ v := by
  intro row hrow v hv
  unfold lb_transform at hrow
  split at hrow
  · obtain ⟨lbl, hlbl, rfl⟩ := List.mem_map.1 hrow
    simp only [List.mem_singleton] at hv
    subst hv
    split <;> norm_num
  · obtain ⟨lbl, hlbl, rfl⟩ := List.mem_map.1 hrow
    obtain ⟨c, hcm, rfl⟩ := List.mem_map.1 hv
    split <;> norm_num

/-- C4: `kfold_score` returns a non-negative scalar: every per-fold
log-loss is non-negative and so is their mean, for any classifier output,
data, labels and number of splits, whenever the logarithm is nonpositive
on (0, 1]. -/
theorem kfold_score_nonneg :
    ∀ {α : Type} (log : ℚ → ℚ) (clf : List α → List Nat → List α → List (List ℚ))
      (dflt : α) (X : List α) (y : List Nat) (splits : Nat),
      (∀ x : ℚ, 0 < x → x ≤ 1 → log x ≤ 0) →
      (∀ v ∈ foldValues log clf dflt X y splits, 0 ≤ v) ∧
        0 ≤ kfold_score log clf dflt X y splits := by
  intro α log clf dflt X y splits hlog
  have hfv : ∀ v ∈ foldValues log clf dflt X y splits, 0 ≤ v := by
    intro v hv
    unfold foldValues at hv
    obtain ⟨i, hi, rfl⟩ := List.mem_map.1 hv
    exact log_loss_nonneg log hlog _ _ (lb_transform_nonneg _ _)
  exact ⟨hfv, listMean_nonneg _ hfv⟩

/-! Structure of the file written by `submission`. -/

theorem mem_enum_snd {α : Type} {p : Nat × α} {l : List α} (hp : p ∈ l.enum) :
    p.2 ∈ l := by
  have := List.mem_map_of_mem Prod.snd hp
  rwa [List.enum_map_snd] at this

theorem submissionLine_no_newline {α : Type} (render : α → List Char) (i : Nat)
    (row : List α) (h : ∀ a ∈ row, '\n' ∉ render a) :
    '\n' ∉ submissionLine render i row := by
  intro hmem
  rcases List.mem_append.1 hmem with hm | hm
  · exact natChars_not_newline _ hm
  · rcases List.mem_cons.1 hm with hm | hm
    · exact absurd hm (by decide)
    · obtain ⟨piece, hpiece, hmp⟩ := List.mem_flatten.1 hm
      obtain ⟨p, hp, rfl⟩ := List.mem_map.1 hpiece
      rcases List.mem_append.1 hmp with hm2 | hm2
      · exact h p.2 (mem_enum_snd hp) hm2
      · revert hm2
        split <;> simp

theorem submission_lines {α : Type} (render : α → List Char) (m : List (List α))
    (h : ∀ row ∈ m, ∀ a ∈ row, '\n' ∉ render a) :
    (submission render m).splitOn '\n'
      = (submissionHeader :: m.enum.map (fun p => submissionLine render p.1 p.2)) ++ [[]] := by
  unfold submission
  apply splitOn_joinLinesNL
  intro l hl
  rcases List.mem_cons.1 hl with rfl | hl
  · decide
  · obtain ⟨p, hp, rfl⟩ := List.mem_map.1 hl
    exact submissionLine_no_newline render p.1 p.2 (h p.2 (mem_enum_snd hp))

theorem submissionLine_head {α : Type} (render : α → List Char) (i : Nat)
    (row : List α) :
    ((submissionLine render i row).splitOn ',').head? = some (natChars i) := by
  unfold submissionLine
  rw [splitOn_sep_append _ _ _ (natChars_not_comma i)]
  rfl

theorem submissionLine_fields {α : Type} (render : α → List Char) (i : Nat)
    (row : List α) (hlen : row.length = 9)
    (hsafe : ∀ a ∈ row, ',' ∉ render a) :
    (submissionLine render i row).splitOn ',' = natChars i :: row.map render := by
  obtain ⟨a0, a1, a2, a3, a4, a5, a6, a7, a8, hrow⟩ :
      ∃ a0 a1 a2 a3 a4 a5 a6 a7 a8, row = [a0, a1, a2, a3, a4, a5, a6, a7, a8] := by
    rcases row with _ | ⟨a0, row⟩; · simp at hlen
    rcases row with _ | ⟨a1, row⟩; · simp at hlen
    rcases row with _ | ⟨a2, row⟩; · simp at hlen
    rcases row with _ | ⟨a3, row⟩; · simp at hlen
    rcases row with _ | ⟨a4, row⟩; · simp at hlen
    rcases row with _ | ⟨a5, row⟩; · simp at hlen
    rcases row with _ | ⟨a6, row⟩; · simp at hlen
    rcases row with _ | ⟨a7, row⟩; · simp at hlen
    rcases row with _ | ⟨a8, row⟩; · simp at hlen
    rcases row with _ | ⟨a9, row⟩
    · exact ⟨a0, a1, a2, a3, a4, a5, a6, a7, a8, rfl⟩
    · simp only [List.length_cons] at hlen; omega
  subst hrow
  have h0 := hsafe a0 (by simp)
  have h1 := hsafe a1 (by simp)
  have h2 := hsafe a2 (by simp)
  have h3 := hsafe a3 (by simp)
  have h4 := hsafe a4 (by simp)
  have h5 := hsafe a5 (by simp)
  have h6 := hsafe a6 (by simp)
  have h7 := hsafe a7 (by simp)
  have hb : submissionLine render i [a0, a1, a2, a3, a4, a5, a6, a7, a8]
      = natChars i ++ ',' :: ((render a0 ++ [',']) ++ ((render a1 ++ [',']) ++
        ((render a2 ++ [',']) ++ ((render a3 ++ [',']) ++ ((render a4 ++ [',']) ++
        ((render a5 ++ [',']) ++ ((render a6 ++ [',']) ++ ((render a7 ++ [',']) ++
        ((render a8 ++ []) ++ []))))))))) := rfl
  rw [hb]
  simp only [List.append_assoc, List.singleton_append, List.append_nil]
  rw [splitOn_sep_append _ _ _ (natChars_not_comma i),
    splitOn_sep_append _ _ _ h0, splitOn_sep_append _ _ _ h1,
    splitOn_sep_append _ _ _ h2, splitOn_sep_append _ _ _ h3,
    splitOn_sep_append _ _ _ h4, splitOn_sep_append _ _ _ h5,
    splitOn_sep_append _ _ _ h6, splitOn_sep_append _ _ _ h7,
    splitOn_eq_single _ _ (hsafe a8 (by simp))]
  rfl

/-- C3, amended to rows of nine entries: for a probability matrix whose
rows each hold nine entries, the file is exactly one header line equal to
`ID,class1,...,class9` followed by one data line per matrix row, and each
data line splits on commas into the row index followed by the nine
rendered entries. -/
theorem submission_nine_fields :
    ∀ {α : Type} (render : α → List Char) (m : List (List α)),
      (∀ row ∈ m, row.length = 9) →
      (∀ row ∈ m, ∀ a ∈ row, ',' ∉ render a ∧ '\n' ∉ render a) →
      (submission render m).splitOn '\n'
          = (submissionHeader :: m.enum.map (fun p => submissionLine render p.1 p.2)) ++ [[]] ∧
      m.enum.map (fun p => (submissionLine render p.1 p.2).splitOn ',')
          = m.enum.map (fun p => natChars p.1 :: p.2.map render) ∧
      ∀ p ∈ m.enum, (p.2.map render).length = 9 := by
  intro α render m hlen hsafe
  refine ⟨submission_lines render m (fun row hr a ha => (hsafe row hr a ha).2), ?_, ?_⟩
  · apply List.map_congr_left
    intro p hp
    exact submissionLine_fields render p.1 p.2 (hlen p.2 (mem_enum_snd hp))
      (fun a ha => (hsafe p.2 (mem_enum_snd hp) a ha).1)
  · intro p hp
    simp [hlen p.2 (mem_enum_snd hp)]

/-- C3, counterexample to the unrestricted claim: on the 1 by 1 matrix
holding the single rendered entry `5`, the data line written by
`submission` is `0,5,` with a trailing comma, so it does not end in nine
comma-separated nonempty fields. -/
theorem submission_not_nine_fields_cex :
    (submission (fun l : List Char => l) [[['5']]]).splitOn '\n'
        = [submissionHeader, ['0', ',', '5', ','], []] ∧
    ¬ ∃ (pre fs : List (List Char)),
        (['0', ',', '5', ','] : List Char).splitOn ',' = pre ++ fs ∧
        fs.length = 9 ∧ ∀ f ∈ fs, f ≠ [] := by
  constructor
  · rfl
  · rintro ⟨pre, fs, heq, hfslen, hne⟩
    have hval : (['0', ',', '5', ','] : List Char).splitOn ',' = [['0'], ['5'], []] := rfl
    rw [hval] at heq
    have hlen3 := congrArg List.length heq
    simp only [List.length_append, hfslen, List.length_cons, List.length_nil] at hlen3
    omega

/-- C9: the ID field of the i-th data line of a `submission` file is the
decimal rendering of the row index i itself, whatever the matrix entries
are: the lines are the header followed by one line per row, and the first
comma-field of the line for row i is `str(i)`. -/
theorem submission_ids_are_row_indices :
    ∀ {α : Type} (render : α → List Char) (m : List (List α)),
      (∀ row ∈ m, ∀ a ∈ row, '\n' ∉ render a) →
      (submission render m).splitOn '\n'
          = (submissionHeader :: m.enum.map (fun p => submissionLine render p.1 p.2)) ++ [[]] ∧
      m.enum.map (fun p => ((submissionLine render p.1 p.2).splitOn ',').head?)
          = m.enum.map (fun p => some (natChars p.1)) := by
  intro α render m h
  refine ⟨submission_lines render m h, ?_⟩
  apply List.map_congr_left
  intro p hp
  exact submissionLine_head render p.1 p.2

/-! Concrete instantiations of the theorems above. -/

/-- A 1 by 9 matrix of rendered entries. -/
def wNineMatrix : List (List (List Char)) :=
  [[['1'], ['2'], ['3'], ['4'], ['5'], ['6'], ['7'], ['8'], ['9']]]

/-- A 2 by 1 matrix of rendered entries. -/
def wTwoRowMatrix : List (List (List Char)) := [[['7']], [['8']]]

theorem get_full_table_inner_join_witness :
    ({ id := 0, cls := 1, text := "alpha".toList } : FullRow).id ≠ 7 :=
  get_full_table_inner_join
    ("ID,Gene,Variation,Class\n0,BRCA,V1,1\n1,TP53,V2,2\n".toList)
    ("ID,Text\n0||alpha\n7||beta\n".toList)
    [{ id := 0, cls := 1 }, { id := 1, cls := 2 }]
    [{ id := 0, text := "alpha".toList }, { id := 7, text := "beta".toList }]
    [{ id := 0, cls := 1, text := "alpha".toList }] 7
    (by rfl) (by rfl) (by rfl) (Or.inl (by decide))
    { id := 0, cls := 1, text := "alpha".toList } (by decide)

theorem submission_nine_fields_witness :
    (submission (fun l : List Char => l) wNineMatrix).splitOn '\n'
        = (submissionHeader :: wNineMatrix.enum.map
            (fun p => submissionLine (fun l : List Char => l) p.1 p.2)) ++ [[]] ∧
      wNineMatrix.enum.map
          (fun p => (submissionLine (fun l : List Char => l) p.1 p.2).splitOn ',')
        = wNineMatrix.enum.map
            (fun p => natChars p.1 :: p.2.map (fun l : List Char => l)) :=
  ⟨(submission_nine_fields (fun l => l) wNineMatrix (by decide) (by decide)).1,
    (submission_nine_fields (fun l => l) wNineMatrix (by decide) (by decide)).2.1⟩

theorem kfold_score_nonneg_witness :
    0 ≤ kfold_score (fun _ => 0) (fun _ _ te => te.map (fun _ => [1, 0])) 0
      [10, 20, 30, 40] [1, 2, 1, 2] 2 :=
  (kfold_score_nonneg (fun _ => 0) (fun _ _ te => te.map (fun _ => [1, 0])) 0
    [10, 20, 30, 40] [1, 2, 1, 2] 2 (fun _ _ _ => le_refl 0)).2

theorem csv_parsing_formats_witness :
    read_text_csv (mkTextContent ("ID,Text".toList)
        [{ id := 0, text := "hello".toList }, { id := 1, text := "world".toList }])
      = Except.ok [{ id := 0, text := "hello".toList }, { id := 1, text := "world".toList }] ∧
    read_variants_csv (mkVariantsContent
        [{ id := 0, gene := "BRCA1".toList, variation := "W100X".toList, cls := 3 }])
      = Except.ok [{ id := 0, cls := 3 }] :=
  csv_parsing_formats ("ID,Text".toList)
    [{ id := 0, text := "hello".toList }, { id := 1, text := "world".toList }]
    [{ id := 0, gene := "BRCA1".toList, variation := "W100X".toList, cls := 3 }]
    (by decide) (by decide) (by decide)

theorem get_training_test_by_position_witness :
    get_training ("1\n".toList) ("ID,Gene,Variation,Class\n3,G,V,1\n4,G,V,2\n".toList)
        ("ID,Text\n5||aa\n9||bb\n".toList)
      = Except.ok ([{ id := 9, text := "bb".toList }], [{ id := 4, cls := 2 }]) ∧
    get_test ("1\n".toList) ("ID,Gene,Variation,Class\n3,G,V,1\n4,G,V,2\n".toList)
        ("ID,Text\n5||aa\n9||bb\n".toList)
      = Except.ok ([{ id := 9, text := "bb".toList }], [{ id := 4, cls := 2 }]) :=
  get_training_test_by_position ("1\n".toList)
    ("ID,Gene,Variation,Class\n3,G,V,1\n4,G,V,2\n".toList)
    ("ID,Text\n5||aa\n9||bb\n".toList) [1]
    [{ id := 5, text := "aa".toList }, { id := 9, text := "bb".toList }]
    [{ id := 3, cls := 1 }, { id := 4, cls := 2 }]
    (by rfl) (by rfl) (by rfl) (by decide)

theorem helpers_propagate_errors_witness :
    get_full_table ("foo\nbar\n".toList) ("ID,Text\n0||a\n".toList)
      = Except.error "KeyError" ∧
    get_full_table ("ID,Gene,Variation,Class\n0,G,V,1\n".toList)
        ("ID,Text\nnodelim\n".toList)
      = Except.error "ParserError" ∧
    train_test_split 0 ("foo\nbar\n".toList) ("ID,Text\n0||a\n".toList)
      = Except.error "KeyError" ∧
    train_test_split 0 ("ID,Gene,Variation,Class\n0,G,V,1\n".toList)
        ("ID,Text\nnodelim\n".toList)
      = Except.error "ParserError" ∧
    get_training ("x\n".toList) ("ID,Gene,Variation,Class\n0,G,V,1\n".toList)
        ("ID,Text\n0||a\n".toList)
      = Except.error "ValueError" ∧
    get_test ("x\n".toList) ("ID,Gene,Variation,Class\n0,G,V,1\n".toList)
        ("ID,Text\n0||a\n".toList)
      = Except.error "ValueError" ∧
    get_training ("5\n".toList) ("ID,Gene,Variation,Class\n0,G,V,1\n".toList)
        ("ID,Text\n0||a\n".toList)
      = Except.error "IndexError" := by
  refine ⟨?_, ?_, ?_, ?_, ?_, ?_, ?_⟩
  · exact (helpers_propagate_errors [] ("foo\nbar\n".toList)
      ("ID,Text\n0||a\n".toList) "KeyError").1 (by rfl)
  · exact (helpers_propagate_errors [] ("ID,Gene,Variation,Class\n0,G,V,1\n".toList)
      ("ID,Text\nnodelim\n".toList) "ParserError").2.1
      [{ id := 0, cls := 1 }] (by rfl) (by rfl)
  · exact (helpers_propagate_errors [] ("foo\nbar\n".toList)
      ("ID,Text\n0||a\n".toList) "KeyError").2.2.1 (by rfl) 0
  · exact (helpers_propagate_errors [] ("ID,Gene,Variation,Class\n0,G,V,1\n".toList)
      ("ID,Text\nnodelim\n".toList) "ParserError").2.2.2.1
      [{ id := 0, cls := 1 }] (by rfl) (by rfl) 0
  · exact ((helpers_propagate_errors ("x\n".toList)
      ("ID,Gene,Variation,Class\n0,G,V,1\n".toList)
      ("ID,Text\n0||a\n".toList) "ValueError").2.2.2.2.1 (by rfl)).1
  · exact ((helpers_propagate_errors ("x\n".toList)
      ("ID,Gene,Variation,Class\n0,G,V,1\n".toList)
      ("ID,Text\n0||a\n".toList) "ValueError").2.2.2.2.1 (by rfl)).2
  · exact (helpers_propagate_errors ("5\n".toList)
      ("ID,Gene,Variation,Class\n0,G,V,1\n".toList)
      ("ID,Text\n0||a\n".toList) "IndexError").2.2.2.2.2 [5]
      [{ id := 0, cls := 1 }] [{ id := 0, text := "a".toList }]
      (by rfl) (by rfl) (by rfl) ⟨5, by decide, by decide⟩

theorem submission_ids_are_row_indices_witness :
    (submission (fun l : List Char => l) wTwoRowMatrix).splitOn '\n'
        = (submissionHeader :: wTwoRowMatrix.enum.map
            (fun p => submissionLine (fun l : List Char => l) p.1 p.2)) ++ [[]] ∧
      wTwoRowMatrix.enum.map
          (fun p => ((submissionLine (fun l : List Char => l) p.1 p.2).splitOn ',').head?)
        = wTwoRowMatrix.enum.map (fun p => some (natChars p.1)) :=
  submission_ids_are_row_indices (fun l => l) wTwoRowMatrix (by decide)
